import Mathlib

/-!
Verification of the audio graph engine (`Net48` in `src/net.rs`) of this
repository.  The Rust engine is shallowly embedded: sample values are exact
integers (the claims under study only involve copying, summation and the
constant zero, all exact), mutation is explicit state passing, and every
operation that can panic in Rust (out-of-range indexing, failed assertion,
the cycle panic in order determination) is Option-valued, with `none`
standing for the panic.

Parts of the repository that `net.rs` uses but that are not present in the
source tree (the `Buffer`, `Signal` and `AudioUnit` collaborators) are
modelled from the specification, as noted on each definition.
-/

set_option maxRecDepth 4000

namespace FundspNet

/-- Sample type of the embedding.  The engine is parameterized over a float
width in Rust; the dataflow verified here is exact, so integers are used. -/
abbrev F := Int

/-- Input or output port (`Port` in net.rs). -/
inductive Port where
  /-- Node input or output. -/
  | Local : Nat → Nat → Port
  /-- Global input or output. -/
  | Global : Nat → Port
  /-- Unconnected input. -/
  | Zero : Port
deriving DecidableEq, Repr

/-- Directed connection (`Edge` in net.rs). -/
structure Edge where
  source : Port
  target : Port
deriving DecidableEq, Repr

/-- Create an edge from source to target (`edge` in net.rs). -/
def edge (source target : Port) : Edge := ⟨source, target⟩

/-- Modelled from the spec: `signal.rs` is not in the source tree.  Section 6
describes the frequency-response descriptor consumed by `route` as an
abstract constant-or-unknown per-channel value. -/
inductive Signal where
  | Value : F → Signal
  | Unknown : Signal
deriving DecidableEq, Repr

/-- Modelled from the spec: a fresh frame of descriptors, one unknown value
per channel (`new_signal_frame`). -/
def newSignalFrame (n : Nat) : List Signal := List.replicate n Signal.Unknown

/-- Modelled from the spec: the processing-unit capability of section 4.4.
A unit has fixed arity, internal state, a single-sample transform and a
frequency-response transform.  Its block transform is the single-sample
transform iterated, which is the deterministic-unit contract the spec
assumes. -/
structure AudioUnit where
  inputs : Nat
  outputs : Nat
  state : List F
  tickFn : List F → List F → List F × List F
  routeFn : List Signal → F → List Signal

/-- One single-sample step of a unit: feed the input sample set to the
transform, store the updated state, return the output sample set. -/
def AudioUnit.tick (u : AudioUnit) (inp : List F) : AudioUnit × List F :=
  let p := u.tickFn u.state inp
  ({ u with state := p.1 }, p.2)

/-- Read sample `k` of a block channel; the channel has zero-filled capacity
beyond the samples written (modelled from the spec: buffers are allocated
zero-filled with fixed per-channel capacity). -/
def blockGet (b : List F) (k : Nat) : F := b.getD k 0

/-- One sample column of a unit's block transform: apply the single-sample
transform to the input samples at position `k` and append the produced
output sample row. -/
def tickStep (inBlocks : List (List F)) (acc : AudioUnit × List (List F)) (k : Nat) :
    AudioUnit × List (List F) :=
  let p := acc.1.tick (inBlocks.map fun b => blockGet b k)
  (p.1, acc.2 ++ [p.2])

/-- Block transform of a unit: the single-sample transform applied to each
sample column in order, outputs regrouped per channel. -/
def AudioUnit.processUnit (u0 : AudioUnit) (size : Nat) (inBlocks : List (List F)) :
    AudioUnit × List (List F) :=
  let r := (List.range size).foldl (tickStep inBlocks) (u0, [])
  (r.1, (List.range u0.outputs).map fun c => r.2.map fun row => row.getD c 0)

/-- Graph vertex (`Vertex48` in net.rs): one owned unit, its incoming-edge
table, its block buffers and its per-sample scratch values. -/
structure Vertex where
  unit : AudioUnit
  source : List Edge
  input : List (List F)
  output : List (List F)
  tick_input : List F
  tick_output : List F
  id : Nat

/-- Number of inputs, reported from the input buffer as in the source. -/
def Vertex.inputs (v : Vertex) : Nat := v.input.length

/-- Number of outputs, reported from the output buffer as in the source. -/
def Vertex.outputs (v : Vertex) : Nat := v.output.length

/-- A pass-through unit (`pass()` from the prelude, used by `Vertex48::new`).
Modelled from the spec: it copies its one input channel to its one output
channel. -/
def passUnit : AudioUnit :=
  { inputs := 1, outputs := 1, state := [],
    tickFn := fun s inp => (s, [inp.getD 0 0]),
    routeFn := fun sig _ => [sig.getD 0 Signal.Unknown] }

/-- Fresh vertex with zero-filled buffers of the given sizes and a
pass-through unit (`Vertex48::new`); used as the detached placeholder
during tick and process. -/
def Vertex.new (id inputs outputs : Nat) : Vertex :=
  { unit := passUnit, source := [],
    input := List.replicate inputs [], output := List.replicate outputs [],
    tick_input := List.replicate inputs 0, tick_output := List.replicate outputs 0,
    id := id }

/-- The network (`Net48` in net.rs): global buffers, global output wiring,
vertices, and the cached evaluation order with its validity flag. -/
structure Net where
  input : List (List F)
  output : List (List F)
  output_edge : List Edge
  vertex : List Vertex
  order : List Nat
  ordered : Bool

/-- Number of global inputs, reported from the global input buffer. -/
def Net.inputs (net : Net) : Nat := net.input.length

/-- Number of global outputs, reported from the global output buffer. -/
def Net.outputs (net : Net) : Nat := net.output.length

/-- Create a network with fixed arity; every global output defaults to the
unconnected (silent) source (`Net48::new`). -/
def Net.new (inputs outputs : Nat) : Net :=
  { input := List.replicate inputs [], output := List.replicate outputs [],
    output_edge := (List.range outputs).map fun channel => edge Port.Zero (Port.Global channel),
    vertex := [], order := [], ordered := true }

/-- Sequence a list of fallible element computations, aborting at the first
failure; `none` models the panic on the first failing iteration of the
corresponding Rust loop. -/
def mapOpt (f : α → Option β) : List α → Option (List β)
  | [] => some []
  | a :: l =>
    match f a, mapOpt f l with
    | some b, some r => some (b :: r)
    | _, _ => none

/-- Fallible left fold, aborting at the first failure; `none` models the
panic on the first failing iteration of the corresponding Rust loop. -/
def foldOpt (f : β → α → Option β) (b : β) : List α → Option β
  | [] => some b
  | a :: l =>
    match f b a with
    | some b' => foldOpt f b' l
    | none => none

/-! ### Order determination (`determine_order_in`) -/

/-- Mutable state of `determine_order_in`: the order built so far, the
per-vertex not-yet-ordered flags, the per-vertex unsatisfied-input counts,
and the number of vertices still unordered. -/
structure OrderState where
  order : List Nat
  vertexLeft : List Bool
  inputsLeft : List Nat
  verticesLeft : Nat

/-- Decrement the unsatisfied-input count of vertex `v` (known in range and
still unordered, so its count is positive); order it when the count
reaches zero.  Mirrors the decrement-then-test bodies in net.rs. -/
def decrStep (s : OrderState) (v : Nat) : OrderState :=
  let c := s.inputsLeft.getD v 0 - 1
  if c = 0 then
    { order := s.order ++ [v], vertexLeft := s.vertexLeft.set v false,
      inputsLeft := s.inputsLeft.set v c, verticesLeft := s.verticesLeft - 1 }
  else
    { s with inputsLeft := s.inputsLeft.set v c }

/-- Seed-phase decrement guarded by the not-yet-ordered flag; indexing the
flag with an out-of-range vertex id is the panic `none`. -/
def seedDecr (s : OrderState) (v : Nat) : Option OrderState :=
  match s.vertexLeft.get? v with
  | none => none
  | some true => some (decrStep s v)
  | some false => some s

/-- Seed phase body, one edge: an edge from a global or unconnected source
into a local target counts as an already satisfied dependency. -/
def seedStep (s : OrderState) (e : Edge) : Option OrderState :=
  match e.source, e.target with
  | Port.Global _, Port.Local v _ => seedDecr s v
  | Port.Zero, Port.Local v _ => seedDecr s v
  | _, _ => some s

/-- Scan body, one edge: a local-to-local edge whose source is already
ordered and whose target is not decrements the target and records
progress.  The source flag is read first and short-circuits, exactly as
the Rust conjunction does; reading a flag out of range is the panic. -/
def scanStep (sp : OrderState × Bool) (e : Edge) : Option (OrderState × Bool) :=
  match e.source, e.target with
  | Port.Local src _, Port.Local tgt _ =>
    match sp.1.vertexLeft.get? src with
    | none => none
    | some true => some sp
    | some false =>
      match sp.1.vertexLeft.get? tgt with
      | none => none
      | some false => some sp
      | some true => some (decrStep sp.1 tgt, true)
  | _, _ => some sp

/-- The while loop of `determine_order_in`, with explicit fuel.  A scan that
makes no progress while vertices remain is the cycle panic.  Each
progressing scan strictly decreases the total of the unsatisfied-input
counts, so the fuel chosen at the call site is never exhausted on states
reachable from the entry point. -/
def orderLoop (allEdges : List Edge) : Nat → OrderState → Option (List Nat)
  | 0, _ => none
  | fuel + 1, s =>
    if s.verticesLeft = 0 then some s.order
    else
      match foldOpt scanStep (s, false) allEdges with
      | none => none
      | some (s', progress) => if progress then orderLoop allEdges fuel s' else none

/-- The whole of `determine_order_in`, over the per-vertex declared input
counts and the concatenation of all incoming-edge tables: order the
zero-input vertices, run the seed phase, then scan until done. -/
def determineOrderCore (inputCounts : List Nat) (allEdges : List Edge) : Option (List Nat) :=
  let n := inputCounts.length
  let s0 : OrderState :=
    { order := [], vertexLeft := List.replicate n true, inputsLeft := inputCounts,
      verticesLeft := n }
  let s1 := (List.range n).foldl
    (fun s i =>
      if inputCounts.getD i 0 = 0 then
        { order := s.order ++ [i], vertexLeft := s.vertexLeft.set i false,
          inputsLeft := s.inputsLeft, verticesLeft := s.verticesLeft - 1 }
      else s)
    s0
  match foldOpt seedStep s1 allEdges with
  | none => none
  | some s2 => orderLoop allEdges (s2.inputsLeft.sum + 1) s2

/-- Order determination of a network: declared unit input counts and the
concatenated incoming-edge tables, exactly as `determine_order_in`
collects them. -/
def Net.orderOf (net : Net) : Option (List Nat) :=
  determineOrderCore (net.vertex.map fun v => v.unit.inputs)
    ((net.vertex.map fun v => v.source).flatten)

/-- Rust `determine_order`: recompute the cached order and mark it valid; the
cycle panic is `none`. -/
def Net.determineOrder (net : Net) : Option Net :=
  net.orderOf.map fun ord => { net with order := ord, ordered := true }

/-- The lazy reordering prologue shared by tick and process: keep the
network as is while the cached order is valid, else recompute it. -/
def Net.ensureOrdered (net : Net) : Option Net :=
  if net.ordered then some net else net.determineOrder

/-! ### Graph editing operations -/

/-- Rust `Net48::add`: append a vertex owning the unit, its id the next
consecutive index, every incoming slot an unconnected edge addressed
self-referentially, buffers zero-filled; the cached order is invalidated. -/
def Net.add (net : Net) (unit : AudioUnit) : Net × Nat :=
  let id := net.vertex.length
  let v : Vertex :=
    { unit := unit,
      source := (List.range unit.inputs).map fun i => edge Port.Zero (Port.Local id i),
      input := List.replicate unit.inputs [], output := List.replicate unit.outputs [],
      tick_input := List.replicate unit.inputs 0,
      tick_output := List.replicate unit.outputs 0,
      id := id }
  ({ net with vertex := net.vertex ++ [v], ordered := false }, id)

/-- Rust `Net48::connect`: overwrite the target input slot with a local edge; the
two target indices are checked by the slot indexing itself (panic is
`none`), the two source indices are not read at all. -/
def Net.connect (net : Net) (source source_port target target_port : Nat) : Option Net :=
  match net.vertex.get? target with
  | none => none
  | some v =>
    if target_port < v.source.length then
      let e := edge (Port.Local source source_port) (Port.Local target target_port)
      some { net with
             vertex := net.vertex.set target { v with source := v.source.set target_port e },
             ordered := false }
    else none

/-- Rust `Net48::connect_input`: overwrite the target input slot with a global
edge. -/
def Net.connect_input (net : Net) (global_input target target_port : Nat) : Option Net :=
  match net.vertex.get? target with
  | none => none
  | some v =>
    if target_port < v.source.length then
      let e := edge (Port.Global global_input) (Port.Local target target_port)
      some { net with
             vertex := net.vertex.set target { v with source := v.source.set target_port e },
             ordered := false }
    else none

/-- Write `f i` into slot `i` of an edge table for each listed index,
failing (panic) on an out-of-range slot; the loop bodies of `pipe_input`,
`pipe_output` and `pipe` all have this shape. -/
def setEdges (f : Nat → Edge) (s : List Edge) (l : List Nat) : Option (List Edge) :=
  foldOpt (fun s i => if i < s.length then some (s.set i (f i)) else none) s l

/-- Rust `Net48::pipe_input`: requires the target's input arity to match the
network's (assertion failure is `none`), then wires every target input
from the matching global input. -/
def Net.pipe_input (net : Net) (target : Nat) : Option Net := do
  let v ← net.vertex.get? target
  if v.inputs = net.inputs then
    let src ← setEdges (fun i => edge (Port.Global i) (Port.Local target i))
      v.source (List.range net.inputs)
    some { net with
           vertex := net.vertex.set target { v with source := src },
           ordered := false }
  else none

/-- Rust `Net48::connect_output`: overwrite one global output edge with a local
source; the global output index is checked by the indexing, the source
indices are not read. -/
def Net.connect_output (net : Net) (source source_port global_output : Nat) : Option Net :=
  if global_output < net.output_edge.length then
    let e := edge (Port.Local source source_port) (Port.Global global_output)
    some { net with
           output_edge := net.output_edge.set global_output e,
           ordered := false }
  else none

/-- Rust `Net48::pipe_output`: requires the source's output arity to match the
network's, then wires every global output from the matching source
output. -/
def Net.pipe_output (net : Net) (source : Nat) : Option Net := do
  let v ← net.vertex.get? source
  if v.outputs = net.outputs then
    let oe ← setEdges (fun i => edge (Port.Local source i) (Port.Global i))
      net.output_edge (List.range net.outputs)
    some { net with output_edge := oe, ordered := false }
  else none

/-- Rust `Net48::join`: route the edge to a vertex input slot or a global output
slot by its target; an unconnected target changes no table.  Every case
invalidates the cached order. -/
def Net.join (net : Net) (e : Edge) : Option Net :=
  match e.target with
  | Port.Global g =>
    if g < net.output_edge.length then
      some { net with output_edge := net.output_edge.set g e, ordered := false }
    else none
  | Port.Local t tp => do
    let v ← net.vertex.get? t
    if tp < v.source.length then
      some { net with
             vertex := net.vertex.set t { v with source := v.source.set tp e },
             ordered := false }
    else none
  | Port.Zero => some { net with ordered := false }

/-- Rust `Net48::pipe`: requires the source's output arity to match the target's
input arity, then wires every target input from the matching source
output. -/
def Net.pipe (net : Net) (source target : Nat) : Option Net := do
  let vs ← net.vertex.get? source
  let vt ← net.vertex.get? target
  if vs.outputs = vt.inputs then
    let src ← setEdges (fun i => edge (Port.Local source i) (Port.Local target i))
      vt.source (List.range vt.inputs)
    some { net with
           vertex := net.vertex.set target { vt with source := src },
           ordered := false }
  else none

/-- Rust `Net48::chain`: requires the unit's arities to match the network output
arity, adds the unit, wires the global outputs from it, and wires its
inputs from the previous vertex, or from the global inputs when it is the
first vertex. -/
def Net.chain (net : Net) (unit : AudioUnit) : Option Net :=
  if unit.inputs = unit.outputs ∧ net.outputs = unit.outputs then
    let p := net.add unit
    do
      let net2 ← p.1.pipe_output p.2
      if p.2 > 0 then net2.pipe (p.2 - 1) p.2 else net2.pipe_input p.2
  else none

/-! ### Tick (single sample) -/

/-- Read the current single-sample value of a port: an unconnected source is
silence, a global source is the network input sample of that channel, a
local source is the producing vertex's stored single-sample output.
Out-of-range indexing is the panic `none`. -/
def tickSourceVal (vtxs : List Vertex) (input : List F) : Port → Option F
  | Port.Zero => some 0
  | Port.Global p => input.get? p
  | Port.Local s p => do
    let v ← vtxs.get? s
    v.tick_output.get? p

/-- The input-gathering loop of `tick` for one vertex: one sample per input
buffer channel, read through that channel's incoming edge.  `vtxs` is the
vertex sequence with the vertex under evaluation already detached. -/
def tickGather (vtxs : List Vertex) (input : List F) (v : Vertex) : Option (List F) :=
  mapOpt (fun channel => do
      let e ← v.source.get? channel
      tickSourceVal vtxs input e.source)
    (List.range v.inputs)

/-- The vertex loop of `tick`: in evaluation order, detach the vertex
(replace it by an empty placeholder), gather its input samples, run its
unit's single-sample transform, and reinsert it with the new state and
scratch values. -/
def tickNodes (input : List F) : List Nat → List Vertex → Option (List Vertex)
  | [], vtxs => some vtxs
  | idx :: rest, vtxs => do
    let v ← vtxs.get? idx
    let detached := vtxs.set idx (Vertex.new idx 0 0)
    let tin ← tickGather detached input v
    let p := v.unit.tick tin
    tickNodes input rest
      (vtxs.set idx { v with unit := p.1, tick_input := tin, tick_output := p.2 })

/-- The global-output loop of `tick`: one sample per caller output channel,
read through the network's output edge table from the final vertex
state. -/
def tickOutput (vtxs : List Vertex) (input : List F) (output_edge : List Edge)
    (outLen : Nat) : Option (List F) :=
  mapOpt (fun channel => do
      let e ← output_edge.get? channel
      match e.source with
      | Port.Global p => input.get? p
      | Port.Local n p => do
        let v ← vtxs.get? n
        v.tick_output.get? p
      | Port.Zero => some 0)
    (List.range outLen)

/-- Rust `Net48::tick`: recompute the order if invalid, evaluate every vertex in
order, then fill the caller's output samples.  `outLen` is the length of
the caller's output slice. -/
def Net.tick (net : Net) (input : List F) (outLen : Nat) : Option (Net × List F) := do
  let net1 ← net.ensureOrdered
  let vtxs ← tickNodes input net1.order net1.vertex
  let out ← tickOutput vtxs input net1.output_edge outLen
  some ({ net1 with vertex := vtxs }, out)

/-! ### Process (fixed-size block) -/

/-- The input-gathering loop of `process` for one vertex: one block of
`size` samples per input buffer channel.  An unconnected source fills the
block with zeros, a global source copies a slice of the caller's input
block (which must be long enough, else the slicing panic), a local source
copies from the producing vertex's output buffer, whose capacity beyond
the written samples reads as zero. -/
def processGather (vtxs : List Vertex) (size : Nat) (input : List (List F))
    (v : Vertex) : Option (List (List F)) :=
  mapOpt (fun channel => do
      let e ← v.source.get? channel
      match e.source with
      | Port.Zero => some (List.replicate size (0 : F))
      | Port.Global p => do
        let b ← input.get? p
        if size ≤ b.length then some (b.take size) else none
      | Port.Local s p => do
        let v2 ← vtxs.get? s
        let b ← v2.output.get? p
        some ((List.range size).map fun k => blockGet b k))
    (List.range v.inputs)

/-- The vertex loop of `process`: in evaluation order, detach the vertex,
gather its input blocks, run its unit's block transform, and reinsert it
with the new state and buffers. -/
def processNodes (size : Nat) (input : List (List F)) :
    List Nat → List Vertex → Option (List Vertex)
  | [], vtxs => some vtxs
  | idx :: rest, vtxs => do
    let v ← vtxs.get? idx
    let detached := vtxs.set idx (Vertex.new idx 0 0)
    let blocks ← processGather detached size input v
    let p := v.unit.processUnit size blocks
    processNodes size input rest
      (vtxs.set idx { v with unit := p.1, input := blocks, output := p.2 })

/-- The global-output loop of `process`: one block per caller output
channel, read through the network's output edge table. -/
def processOutput (vtxs : List Vertex) (size : Nat) (input : List (List F))
    (output_edge : List Edge) (outChans : Nat) : Option (List (List F)) :=
  mapOpt (fun channel => do
      let e ← output_edge.get? channel
      match e.source with
      | Port.Global p => do
        let b ← input.get? p
        if size ≤ b.length then some (b.take size) else none
      | Port.Local n p => do
        let v ← vtxs.get? n
        let b ← v.output.get? p
        some ((List.range size).map fun k => blockGet b k)
      | Port.Zero => some (List.replicate size (0 : F)))
    (List.range outChans)

/-- Rust `Net48::process`: recompute the order if invalid, evaluate every vertex
on the whole block in order, then fill the caller's output blocks.
`outChans` is the number of caller output channels. -/
def Net.process (net : Net) (size : Nat) (input : List (List F)) (outChans : Nat) :
    Option (Net × List (List F)) := do
  let net1 ← net.ensureOrdered
  let vtxs ← processNodes size input net1.order net1.vertex
  let out ← processOutput vtxs size input net1.output_edge outChans
  some ({ net1 with vertex := vtxs }, out)

/-! ### Route (frequency-domain analysis) -/

/-- The input-gathering loop of `route` for one node: one descriptor per
declared unit input, read through the incoming edge; an unconnected
source is the known constant zero. -/
def routeGather (inner : List (List Signal)) (input : List Signal)
    (nd : AudioUnit × List Edge) : Option (List Signal) :=
  mapOpt (fun channel => do
      let e ← nd.2.get? channel
      match e.source with
      | Port.Local j p => do
        let s ← inner.get? j
        s.get? p
      | Port.Global j => input.get? j
      | Port.Zero => some (Signal.Value 0))
    (List.range nd.1.inputs)

/-- The node loop of `route`: in its own freshly computed order, gather each
node's input descriptors and store the unit's routed output descriptors. -/
def routeNodes (freq : F) (input : List Signal) (nodes : List (AudioUnit × List Edge)) :
    List Nat → List (List Signal) → Option (List (List Signal))
  | [], inner => some inner
  | idx :: rest, inner => do
    let nd ← nodes.get? idx
    let inSig ← routeGather inner input nd
    routeNodes freq input nodes rest (inner.set idx (nd.1.routeFn inSig freq))

/-- The global-output loop of `route`: one descriptor per network output
channel, read through the output edge table. -/
def routeOutput (input : List Signal) (inner : List (List Signal))
    (output_edge : List Edge) (outChans : Nat) : Option (List Signal) :=
  mapOpt (fun channel => do
      let e ← output_edge.get? channel
      match e.source with
      | Port.Global p => input.get? p
      | Port.Local n p => do
        let s ← inner.get? n
        s.get? p
      | Port.Zero => some (Signal.Value 0))
    (List.range outChans)

/-- The body of `route` over the data it reads: the output edge table, the
output arity, and the per-vertex units and incoming tables.  It computes
its own topological order into local storage, propagates descriptors in
that order, and derives the network output descriptors. -/
def routeCore (oe : List Edge) (outs : Nat) (nodes : List (AudioUnit × List Edge))
    (input : List Signal) (freq : F) : Option (List Signal) := do
  let ord ← determineOrderCore (nodes.map fun nd => nd.1.inputs)
    ((nodes.map fun nd => nd.2).flatten)
  let inner0 := nodes.map fun nd => newSignalFrame nd.1.outputs
  let inner ← routeNodes freq input nodes ord inner0
  routeOutput input inner oe outs

/-- Rust `Net48::route`: a read-only analysis pass.  The only vertex data it
reads are the units and the incoming-edge tables, projected out here; it
neither reads nor writes the cached order, the validity flag, or any
buffer contents. -/
def Net.route (net : Net) (input : List Signal) (freq : F) : Option (List Signal) :=
  routeCore net.output_edge net.outputs (net.vertex.map fun v => (v.unit, v.source))
    input freq

/-! ### Derived notions used by the claims -/

/-- All local-to-local dependencies recorded in the incoming-edge tables,
as source-target vertex id pairs. -/
def localEdges (net : Net) : List (Nat × Nat) :=
  ((net.vertex.map fun v => v.source).flatten).filterMap fun e =>
    match e.source, e.target with
    | Port.Local s _, Port.Local t _ => some (s, t)
    | _, _ => none

/-- Decidable check that `ord` is a permutation of all vertex ids in which
every recorded local-to-local dependency has its source strictly before
its target. -/
def isTopoOrder (net : Net) (ord : List Nat) : Bool :=
  ord.length = net.vertex.length
    && (List.range net.vertex.length).all (fun i => ord.count i == 1)
    && (localEdges net).all fun st => decide (ord.indexOf st.1 < ord.indexOf st.2)

/-- The per-vertex structural invariant: the incoming-edge table has exactly
one slot per declared unit input. -/
def slotInvL (vtxs : List Vertex) : Prop :=
  ∀ v ∈ vtxs, v.source.length = v.unit.inputs

/-- The structural invariant of a network's vertices. -/
def Net.slotInv (net : Net) : Prop := slotInvL net.vertex

/-! ### Concrete units and networks used as inputs to the theorems -/

/-- A source unit with no inputs that emits the constant `c`. -/
def constUnit (c : F) : AudioUnit :=
  { inputs := 0, outputs := 1, state := [],
    tickFn := fun s _ => (s, [c]),
    routeFn := fun _ _ => [Signal.Value c] }

/-- A unit summing its two inputs into one output. -/
def sum2Unit : AudioUnit :=
  { inputs := 2, outputs := 1, state := [],
    tickFn := fun s inp => (s, [inp.getD 0 0 + inp.getD 1 0]),
    routeFn := fun _ _ => [Signal.Unknown] }

/-- An acyclic five-vertex network built through the public editing surface:
vertex 0 sums vertices 1 (constant 10) and 2; vertex 2 passes vertex 3,
which passes vertex 4 (constant 1); the sole global output taps vertex 0.
Its local dependencies are acyclic, yet one satisfied edge is recounted
by every order-determination scan, so vertex 0 is ordered before its
source vertex 2. -/
def exNetA : Option Net :=
  let p0 := (Net.new 0 1).add sum2Unit
  let p1 := p0.1.add (constUnit 10)
  let p2 := p1.1.add passUnit
  let p3 := p2.1.add passUnit
  let p4 := p3.1.add (constUnit 1)
  do
    let n5 ← p4.1.connect p1.2 0 p0.2 0
    let n6 ← n5.connect p2.2 0 p0.2 1
    let n7 ← n6.connect p3.2 0 p2.2 0
    let n8 ← n7.connect p4.2 0 p3.2 0
    n8.pipe_output p0.2

/-- A three-vertex network built through the public editing surface, with a
directed two-cycle between vertices 1 and 2 among local ports; vertex 0
(constant 1) also feeds vertex 2, and the recounting of that satisfied
edge lets order determination terminate without detecting the cycle. -/
def exNetB : Option Net :=
  let p0 := (Net.new 0 1).add (constUnit 1)
  let p1 := p0.1.add passUnit
  let p2 := p1.1.add sum2Unit
  do
    let n3 ← p2.1.connect p2.2 0 p1.2 0
    let n4 ← n3.connect p1.2 0 p2.2 0
    let n5 ← n4.connect p0.2 0 p2.2 1
    n5.pipe_output p1.2

/-- A one-vertex network with one global input and output, used by the
claims about `connect` and the editing surface. -/
def exNetC : Net := ((Net.new 1 1).add passUnit).1

/-- A network holding one summing vertex whose two inputs are left
unconnected, and whose sole global output is left at its unconnected
default; every read in it goes through a `Zero` source. -/
def exNetD : Net := ((Net.new 1 1).add sum2Unit).1

/-- Coerce an optional network, defaulting to the trivial empty network;
used only to name concrete computation results inside witnesses. -/
def forceNet (x : Option Net) : Net := x.getD (Net.new 0 0)

/-- Coerce an optional tick result; used only to name concrete computation
results inside witnesses. -/
def forceTick (x : Option (Net × List F)) : Net × List F := x.getD (Net.new 0 0, [])

/-- Coerce an optional process result; used only to name concrete
computation results inside witnesses. -/
def forceProcess (x : Option (Net × List (List F))) : Net × List (List F) :=
  x.getD (Net.new 0 0, [])

/-- A buffer-scrambling vertex map that keeps the unit and the
incoming-edge table; used to witness the frame property of route. -/
def exScrub (v : Vertex) : Vertex :=
  { v with input := [], output := [[9, 9]], tick_input := [7], tick_output := [7] }

/-! ### Theorems -/

/-- A successful traversal returns, at each index of the input list, the
value produced for the element at that index. -/
theorem mapOpt_get? {α β : Type} {f : α → Option β} :
    ∀ {l : List α} {r : List β}, mapOpt f l = some r →
      ∀ {i : Nat} {a : α}, l.get? i = some a → r.get? i = f a := by
  intro l
  induction l with
  | nil => intro r _ i a ha; simp at ha
  | cons x xs ih =>
    intro r h i a ha
    rw [mapOpt] at h
    cases hx : f x with
    | none => rw [hx] at h; simp at h
    | some b =>
      rw [hx] at h
      cases hrest : mapOpt f xs with
      | none => rw [hrest] at h; simp at h
      | some rs =>
        rw [hrest] at h
        simp only [Option.some.injEq] at h
        subst h
        cases i with
        | zero =>
          simp only [List.get?] at ha ⊢
          cases ha
          exact hx.symm
        | succ n =>
          simp only [List.get?] at ha ⊢
          exact ih hrest ha

/-- A successful slot-writing loop: the table keeps its length, every
listed slot holds its prescribed edge, every other slot is untouched. -/
theorem setEdges_total (f : Nat → Edge) :
    ∀ (l : List Nat) (s : List Edge), (∀ i ∈ l, i < s.length) →
      ∃ s', setEdges f s l = some s'
        ∧ s'.length = s.length
        ∧ ∀ j, s'.get? j = if j ∈ l then some (f j) else s.get? j := by
  intro l
  induction l with
  | nil =>
    intro s _
    exact ⟨s, rfl, rfl, by intro j; simp⟩
  | cons x xs ih =>
    intro s h
    have hx : x < s.length := h x (List.mem_cons_self x xs)
    obtain ⟨s', h1, h2, h3⟩ := ih (s.set x (f x)) (by
      intro i hi
      rw [List.length_set]
      exact h i (List.mem_cons_of_mem x hi))
    refine ⟨s', ?_, by rw [h2, List.length_set], ?_⟩
    · simp only [setEdges, foldOpt, if_pos hx]
      exact h1
    · intro j
      rw [h3 j]
      by_cases hj : j ∈ xs
      · simp [hj]
      · by_cases hjx : j = x
        · subst hjx
          simp only [List.mem_cons, true_or, if_pos, hj, if_neg, or_false]
          rw [List.get?_set_eq, List.get?_eq_get hx]
          simp
        · have : j ∉ (x :: xs) := by simp [hjx, hj]
          simp only [if_neg this, if_neg hj]
          exact List.get?_set_ne (f x) s (fun hh => hjx hh.symm)

/-- A slot-writing loop that returned at all kept the table length. -/
theorem setEdges_length {f : Nat → Edge} :
    ∀ {l : List Nat} {s s' : List Edge}, setEdges f s l = some s' →
      s'.length = s.length := by
  intro l
  induction l with
  | nil => intro s s' h; cases h; rfl
  | cons x xs ih =>
    intro s s' h
    simp only [setEdges, foldOpt] at h
    by_cases hx : x < s.length
    · rw [if_pos hx] at h
      have := ih (s := s.set x (f x)) h
      rw [List.length_set] at this
      exact this
    · rw [if_neg hx] at h
      cases h

/-- C5 (amended): connect overwrites exactly the addressed slot of the
addressed target vertex and nothing else; an out-of-range target node or
target port fails fatally at the call itself; the source node and source
port are written unchecked.  (The counterexample shows the unchecked
source half; the original claim wrongly included the source indices in
the eager check.) -/
theorem connectSpecC5 (net : Net) (s sp t tp : Nat) :
    (∀ v, net.vertex.get? t = some v → tp < v.source.length →
        Net.connect net s sp t tp = some
          { net with
            vertex := net.vertex.set t
              { v with source := v.source.set tp (edge (Port.Local s sp) (Port.Local t tp)) },
            ordered := false })
      ∧ (net.vertex.get? t = none → Net.connect net s sp t tp = none)
      ∧ (∀ v, net.vertex.get? t = some v → v.source.length ≤ tp →
          Net.connect net s sp t tp = none) := by
  refine ⟨?_, ?_, ?_⟩
  · intro v hv hlt
    simp only [Net.connect]
    rw [hv]
    simp only [if_pos hlt]
  · intro hv
    simp only [Net.connect]
    rw [hv]
  · intro v hv hge
    simp only [Net.connect]
    rw [hv]
    simp only [if_neg (Nat.not_lt.mpr hge)]

/-- Witness for C5 at a concrete network: a connect with in-range target
indices succeeds and clears the order flag, one with an out-of-range
target port fails. -/
theorem connectSpecC5_witness :
    (Net.connect exNetC 0 0 0 0).map (fun n => n.ordered) = some false
      ∧ Net.connect exNetC 0 0 0 9 = none := by
  constructor
  · have hv : exNetC.vertex.get? 0
        = some (exNetC.vertex.getD 0 (Vertex.new 0 0 0)) := rfl
    have h := (connectSpecC5 exNetC 0 0 0 0).1
      (exNetC.vertex.getD 0 (Vertex.new 0 0 0)) hv (by decide)
    rw [h]
    rfl
  · have hv : exNetC.vertex.get? 0
        = some (exNetC.vertex.getD 0 (Vertex.new 0 0 0)) := rfl
    exact (connectSpecC5 exNetC 0 0 0 9).2.2
      (exNetC.vertex.getD 0 (Vertex.new 0 0 0)) hv (by decide)

/-- C9: route reads only the vertices' units and incoming-edge tables, the
output edge table and the output arity.  Replacing the cached order, the
validity flag, the global input buffer, and every buffer of every vertex
leaves its result unchanged; and, being a plain function of the network,
it writes nothing. -/
theorem routeFrameC9 (net : Net) (o : List Nat) (b : Bool) (gin : List (List F))
    (f : Vertex → Vertex) (hu : ∀ v, (f v).unit = v.unit)
    (hs : ∀ v, (f v).source = v.source) (input : List Signal) (freq : F) :
    Net.route { net with
                input := gin,
                order := o,
                ordered := b,
                vertex := net.vertex.map f } input freq
      = Net.route net input freq := by
  obtain ⟨gi, go, oe, vs, od, ob⟩ := net
  simp only [Net.route, Net.outputs]
  rw [List.map_map]
  rw [List.map_congr_left (l := vs) (f := (fun v => (v.unit, v.source)) ∘ f)
    (g := fun v => (v.unit, v.source)) (fun v _ => by simp [Function.comp, hu v, hs v])]

/-- C7: every structural editing operation clears the order-valid flag;
tick and process leave a valid cached order untouched and, after an
invalidation, recompute it once and mark it valid again. -/
theorem editInvalidatesC7 :
    (∀ (net : Net) (u : AudioUnit), ((net.add u).1).ordered = false)
  ∧ (∀ (net : Net) (a b c d : Nat) (n' : Net),
      net.connect a b c d = some n' → n'.ordered = false)
  ∧ (∀ (net : Net) (a b c : Nat) (n' : Net),
      net.connect_input a b c = some n' → n'.ordered = false)
  ∧ (∀ (net : Net) (t : Nat) (n' : Net),
      net.pipe_input t = some n' → n'.ordered = false)
  ∧ (∀ (net : Net) (a b c : Nat) (n' : Net),
      net.connect_output a b c = some n' → n'.ordered = false)
  ∧ (∀ (net : Net) (t : Nat) (n' : Net),
      net.pipe_output t = some n' → n'.ordered = false)
  ∧ (∀ (net : Net) (e : Edge) (n' : Net),
      net.join e = some n' → n'.ordered = false)
  ∧ (∀ (net : Net) (a b : Nat) (n' : Net),
      net.pipe a b = some n' → n'.ordered = false)
  ∧ (∀ (net : Net) (u : AudioUnit) (n' : Net),
      net.chain u = some n' → n'.ordered = false)
  ∧ (∀ (net : Net) (input : List F) (outLen : Nat) (n' : Net) (out : List F),
      net.ordered = true → net.tick input outLen = some (n', out) →
        n'.order = net.order ∧ n'.ordered = true)
  ∧ (∀ (net : Net) (input : List F) (outLen : Nat) (n' : Net) (out : List F),
      net.ordered = false → net.tick input outLen = some (n', out) →
        n'.ordered = true ∧ net.orderOf = some n'.order)
  ∧ (∀ (net : Net) (size : Nat) (input : List (List F)) (outChans : Nat)
        (n' : Net) (out : List (List F)),
      net.ordered = true → net.process size input outChans = some (n', out) →
        n'.order = net.order ∧ n'.ordered = true)
  ∧ (∀ (net : Net) (size : Nat) (input : List (List F)) (outChans : Nat)
        (n' : Net) (out : List (List F)),
      net.ordered = false → net.process size input outChans = some (n', out) →
        n'.ordered = true ∧ net.orderOf = some n'.order) := by
  refine ⟨fun net u => rfl, ?_, ?_, ?_, ?_, ?_, ?_, ?_, ?_, ?_, ?_, ?_, ?_⟩
  · intro net a b c d n' h
    simp only [Net.connect] at h
    split at h
    · exact Option.noConfusion h
    · split at h
      · cases h; rfl
      · exact Option.noConfusion h
  · intro net a b c n' h
    simp only [Net.connect_input] at h
    split at h
    · exact Option.noConfusion h
    · split at h
      · cases h; rfl
      · exact Option.noConfusion h
  · intro net t n' h
    simp only [Net.pipe_input, Option.bind_eq_bind, Option.bind_eq_some] at h
    obtain ⟨v, _, h⟩ := h
    split at h
    · rw [Option.bind_eq_some] at h
      obtain ⟨src, _, h⟩ := h
      cases h; rfl
    · exact Option.noConfusion h
  · intro net a b c n' h
    simp only [Net.connect_output] at h
    split at h
    · cases h; rfl
    · exact Option.noConfusion h
  · intro net t n' h
    simp only [Net.pipe_output, Option.bind_eq_bind, Option.bind_eq_some] at h
    obtain ⟨v, _, h⟩ := h
    split at h
    · rw [Option.bind_eq_some] at h
      obtain ⟨oe, _, h⟩ := h
      cases h; rfl
    · exact Option.noConfusion h
  · intro net e n' h
    simp only [Net.join] at h
    split at h
    · split at h
      · cases h; rfl
      · exact Option.noConfusion h
    · rw [Option.bind_eq_bind, Option.bind_eq_some] at h
      obtain ⟨v, _, h⟩ := h
      split at h
      · cases h; rfl
      · exact Option.noConfusion h
    · cases h; rfl
  · intro net a b n' h
    simp only [Net.pipe, Option.bind_eq_bind, Option.bind_eq_some] at h
    obtain ⟨vs, _, h⟩ := h
    obtain ⟨vt, _, h⟩ := h
    split at h
    · rw [Option.bind_eq_some] at h
      obtain ⟨src, _, h⟩ := h
      cases h; rfl
    · exact Option.noConfusion h
  · intro net u n' h
    simp only [Net.chain] at h
    split at h
    · rw [Option.bind_eq_bind, Option.bind_eq_some] at h
      obtain ⟨net2, _, h⟩ := h
      split at h
      · simp only [Net.pipe, Option.bind_eq_bind, Option.bind_eq_some] at h
        obtain ⟨vs, _, h⟩ := h
        obtain ⟨vt, _, h⟩ := h
        split at h
        · rw [Option.bind_eq_some] at h
          obtain ⟨src, _, h⟩ := h
          cases h; rfl
        · exact Option.noConfusion h
      · simp only [Net.pipe_input, Option.bind_eq_bind, Option.bind_eq_some] at h
        obtain ⟨v, _, h⟩ := h
        split at h
        · rw [Option.bind_eq_some] at h
          obtain ⟨src, _, h⟩ := h
          cases h; rfl
        · exact Option.noConfusion h
    · exact Option.noConfusion h
  · intro net input outLen n' out hord h
    simp only [Net.tick, Option.bind_eq_bind, Option.bind_eq_some] at h
    obtain ⟨net1, h1, vtxs, _, out0, _, h4⟩ := h
    simp only [Net.ensureOrdered] at h1
    rw [hord] at h1
    rw [if_pos rfl] at h1
    cases h1
    cases h4
    exact ⟨rfl, hord⟩
  · intro net input outLen n' out hord h
    simp only [Net.tick, Option.bind_eq_bind, Option.bind_eq_some] at h
    obtain ⟨net1, h1, vtxs, _, out0, _, h4⟩ := h
    simp only [Net.ensureOrdered] at h1
    rw [hord] at h1
    rw [if_neg Bool.false_ne_true] at h1
    simp only [Net.determineOrder, Option.map_eq_some'] at h1
    obtain ⟨ord, hord2, h1⟩ := h1
    cases h1
    cases h4
    exact ⟨rfl, hord2⟩
  · intro net size input outChans n' out hord h
    simp only [Net.process, Option.bind_eq_bind, Option.bind_eq_some] at h
    obtain ⟨net1, h1, vtxs, _, out0, _, h4⟩ := h
    simp only [Net.ensureOrdered] at h1
    rw [hord] at h1
    rw [if_pos rfl] at h1
    cases h1
    cases h4
    exact ⟨rfl, hord⟩
  · intro net size input outChans n' out hord h
    simp only [Net.process, Option.bind_eq_bind, Option.bind_eq_some] at h
    obtain ⟨net1, h1, vtxs, _, out0, _, h4⟩ := h
    simp only [Net.ensureOrdered] at h1
    rw [hord] at h1
    rw [if_neg Bool.false_ne_true] at h1
    simp only [Net.determineOrder, Option.map_eq_some'] at h1
    obtain ⟨ord, hord2, h1⟩ := h1
    cases h1
    cases h4
    exact ⟨rfl, hord2⟩

/-- Witness for C7 at concrete networks: every editing operation clears the
flag; tick and process keep a valid order unchanged and validate an
invalidated one. -/
theorem editInvalidatesC7_witness :
    ((Net.new 0 0).add passUnit).1.ordered = false
  ∧ (forceNet (Net.connect exNetC 0 0 0 0)).ordered = false
  ∧ (forceNet (Net.connect_input exNetC 0 0 0)).ordered = false
  ∧ (forceNet (Net.pipe_input exNetC 0)).ordered = false
  ∧ (forceNet (Net.connect_output exNetC 0 0 0)).ordered = false
  ∧ (forceNet (Net.pipe_output exNetC 0)).ordered = false
  ∧ (forceNet (Net.join exNetC (edge Port.Zero (Port.Local 0 0)))).ordered = false
  ∧ (forceNet (Net.pipe exNetC 0 0)).ordered = false
  ∧ (forceNet (Net.chain exNetC passUnit)).ordered = false
  ∧ ((forceTick (Net.tick (Net.new 0 0) [] 0)).1.order = (Net.new 0 0).order
      ∧ (forceTick (Net.tick (Net.new 0 0) [] 0)).1.ordered = true)
  ∧ ((forceTick (Net.tick exNetD [5] 1)).1.ordered = true
      ∧ exNetD.orderOf = some (forceTick (Net.tick exNetD [5] 1)).1.order)
  ∧ ((forceProcess (Net.process (Net.new 0 0) 1 [] 0)).1.order = (Net.new 0 0).order
      ∧ (forceProcess (Net.process (Net.new 0 0) 1 [] 0)).1.ordered = true)
  ∧ ((forceProcess (Net.process exNetD 2 [[5, 6]] 1)).1.ordered = true
      ∧ exNetD.orderOf = some (forceProcess (Net.process exNetD 2 [[5, 6]] 1)).1.order) := by
  refine ⟨editInvalidatesC7.1 (Net.new 0 0) passUnit, ?_, ?_, ?_, ?_, ?_, ?_, ?_, ?_,
    ?_, ?_, ?_, ?_⟩
  · exact editInvalidatesC7.2.1 exNetC 0 0 0 0 _ rfl
  · exact editInvalidatesC7.2.2.1 exNetC 0 0 0 _ rfl
  · exact editInvalidatesC7.2.2.2.1 exNetC 0 _ rfl
  · exact editInvalidatesC7.2.2.2.2.1 exNetC 0 0 0 _ rfl
  · exact editInvalidatesC7.2.2.2.2.2.1 exNetC 0 _ rfl
  · exact editInvalidatesC7.2.2.2.2.2.2.1 exNetC (edge Port.Zero (Port.Local 0 0)) _ rfl
  · exact editInvalidatesC7.2.2.2.2.2.2.2.1 exNetC 0 0 _ rfl
  · exact editInvalidatesC7.2.2.2.2.2.2.2.2.1 exNetC passUnit _ rfl
  · exact editInvalidatesC7.2.2.2.2.2.2.2.2.2.1 (Net.new 0 0) [] 0 _ _ rfl rfl
  · exact And.intro (editInvalidatesC7.2.2.2.2.2.2.2.2.2.2.1 exNetD [5] 1 _ _ rfl rfl).1
      (editInvalidatesC7.2.2.2.2.2.2.2.2.2.2.1 exNetD [5] 1 _ _ rfl rfl).2
  · exact editInvalidatesC7.2.2.2.2.2.2.2.2.2.2.2.1 (Net.new 0 0) 1 [] 0 _ _ rfl rfl
  · exact And.intro
      (editInvalidatesC7.2.2.2.2.2.2.2.2.2.2.2.2 exNetD 2 [[5, 6]] 1 _ _ rfl rfl).1
      (editInvalidatesC7.2.2.2.2.2.2.2.2.2.2.2.2 exNetD 2 [[5, 6]] 1 _ _ rfl rfl).2

/-- A unit's single-sample step never changes its declared input arity. -/
theorem tick_fst_inputs (u : AudioUnit) (inp : List F) : (u.tick inp).1.inputs = u.inputs :=
  rfl

/-- Folding sample columns never changes the unit's declared input arity. -/
theorem foldl_tickStep_inputs (bl : List (List F)) :
    ∀ (l : List Nat) (acc : AudioUnit × List (List F)),
      (List.foldl (tickStep bl) acc l).1.inputs = acc.1.inputs := by
  intro l
  induction l with
  | nil => intro acc; rfl
  | cons x xs ih =>
    intro acc
    rw [List.foldl_cons, ih]
    rfl

/-- A unit's block transform never changes its declared input arity. -/
theorem processUnit_fst_inputs (u : AudioUnit) (size : Nat) (bl : List (List F)) :
    (u.processUnit size bl).1.inputs = u.inputs := by
  simp only [AudioUnit.processUnit]
  exact foldl_tickStep_inputs bl (List.range size) (u, [])

/-- Writing one well-sized vertex preserves the per-vertex invariant. -/
theorem slotInvL_set {vtxs : List Vertex} {i : Nat} {v : Vertex}
    (h : slotInvL vtxs) (hv : v.source.length = v.unit.inputs) :
    slotInvL (vtxs.set i v) := by
  intro w hw
  rcases List.mem_or_eq_of_mem_set hw with hmem | hmem
  · exact h w hmem
  · rw [hmem]; exact hv

/-- The lazy reordering prologue touches only the cached order and its
flag. -/
theorem ensureOrdered_fields {net net1 : Net} (h : net.ensureOrdered = some net1) :
    net1.vertex = net.vertex ∧ net1.output_edge = net.output_edge
      ∧ net1.input = net.input ∧ net1.output = net.output := by
  simp only [Net.ensureOrdered] at h
  split at h
  · cases h; exact ⟨rfl, rfl, rfl, rfl⟩
  · simp only [Net.determineOrder, Option.map_eq_some'] at h
    obtain ⟨ord, _, h⟩ := h
    subst h
    exact ⟨rfl, rfl, rfl, rfl⟩

/-- The vertex loop of tick rewrites vertices without changing any
incoming-edge table or any unit arity, so it preserves the invariant. -/
theorem tickNodes_slotInv (input : List F) :
    ∀ (ord : List Nat) (vtxs vtxs' : List Vertex),
      slotInvL vtxs → tickNodes input ord vtxs = some vtxs' → slotInvL vtxs' := by
  intro ord
  induction ord with
  | nil => intro vtxs vtxs' h hh; cases hh; exact h
  | cons idx rest ih =>
    intro vtxs vtxs' h hh
    simp only [tickNodes, Option.bind_eq_bind, Option.bind_eq_some] at hh
    obtain ⟨v, hv, tin, _, hh⟩ := hh
    refine ih _ _ ?_ hh
    refine slotInvL_set h ?_
    have hv2 := h v (List.get?_mem hv)
    simpa using hv2

/-- The vertex loop of process likewise preserves the invariant. -/
theorem processNodes_slotInv (size : Nat) (input : List (List F)) :
    ∀ (ord : List Nat) (vtxs vtxs' : List Vertex),
      slotInvL vtxs → processNodes size input ord vtxs = some vtxs' → slotInvL vtxs' := by
  intro ord
  induction ord with
  | nil => intro vtxs vtxs' h hh; cases hh; exact h
  | cons idx rest ih =>
    intro vtxs vtxs' h hh
    simp only [processNodes, Option.bind_eq_bind, Option.bind_eq_some] at hh
    obtain ⟨v, hv, blocks, _, hh⟩ := hh
    refine ih _ _ ?_ hh
    refine slotInvL_set h ?_
    have hv2 := h v (List.get?_mem hv)
    simpa [processUnit_fst_inputs] using hv2

/-- Adding a vertex preserves the invariant: the fresh table has exactly
one slot per declared input. -/
theorem slotInv_add (net : Net) (u : AudioUnit) (h : net.slotInv) :
    ((net.add u).1).slotInv := by
  intro w hw
  rcases List.mem_append.mp hw with hmem | hmem
  · exact h w hmem
  · rw [List.mem_singleton.mp hmem]
    simp

/-- Wiring the global outputs touches no vertex. -/
theorem pipe_output_vertex {net : Net} {s : Nat} {n' : Net}
    (h : net.pipe_output s = some n') : n'.vertex = net.vertex := by
  simp only [Net.pipe_output, Option.bind_eq_bind, Option.bind_eq_some] at h
  obtain ⟨v, _, h⟩ := h
  split at h
  · rw [Option.bind_eq_some] at h
    obtain ⟨oe, _, h⟩ := h
    cases h; rfl
  · exact Option.noConfusion h

/-- Operation `pipe` preserves the invariant: it rewrites the target's slots in
place. -/
theorem pipe_slotInv {net : Net} {a b : Nat} {n' : Net}
    (hInv : net.slotInv) (h : net.pipe a b = some n') : n'.slotInv := by
  simp only [Net.pipe, Option.bind_eq_bind, Option.bind_eq_some] at h
  obtain ⟨vs, _, vt, hvt, h⟩ := h
  split at h
  · rw [Option.bind_eq_some] at h
    obtain ⟨src, hsrc, h⟩ := h
    cases h
    refine slotInvL_set hInv ?_
    have hlen := setEdges_length hsrc
    have hv2 := hInv vt (List.get?_mem hvt)
    simpa [hlen] using hv2
  · exact Option.noConfusion h

/-- Operation `pipe_input` preserves the invariant: it rewrites the target's slots in
place. -/
theorem pipe_input_slotInv {net : Net} {t : Nat} {n' : Net}
    (hInv : net.slotInv) (h : net.pipe_input t = some n') : n'.slotInv := by
  simp only [Net.pipe_input, Option.bind_eq_bind, Option.bind_eq_some] at h
  obtain ⟨v, hv, h⟩ := h
  split at h
  · rw [Option.bind_eq_some] at h
    obtain ⟨src, hsrc, h⟩ := h
    cases h
    refine slotInvL_set hInv ?_
    have hlen := setEdges_length hsrc
    have hv2 := hInv v (List.get?_mem hv)
    simpa [hlen] using hv2
  · exact Option.noConfusion h

/-- C8: every vertex created by add satisfies the structural invariant --
its incoming table has exactly one slot per declared unit input, each
initialized to a well-formed unconnected edge -- and the invariant is
preserved by every public operation of the network. -/
theorem slotInvC8 :
    (∀ (net : Net) (u : AudioUnit), net.slotInv → ((net.add u).1).slotInv)
  ∧ (∀ (net : Net) (u : AudioUnit) (v : Vertex),
      ((net.add u).1).vertex.get? (net.add u).2 = some v →
        v.source.length = u.inputs
          ∧ ∀ i, i < u.inputs →
              v.source.get? i = some (edge Port.Zero (Port.Local net.vertex.length i)))
  ∧ (∀ (net : Net) (a b c d : Nat) (n' : Net),
      net.slotInv → net.connect a b c d = some n' → n'.slotInv)
  ∧ (∀ (net : Net) (a b c : Nat) (n' : Net),
      net.slotInv → net.connect_input a b c = some n' → n'.slotInv)
  ∧ (∀ (net : Net) (t : Nat) (n' : Net),
      net.slotInv → net.pipe_input t = some n' → n'.slotInv)
  ∧ (∀ (net : Net) (a b c : Nat) (n' : Net),
      net.slotInv → net.connect_output a b c = some n' → n'.slotInv)
  ∧ (∀ (net : Net) (t : Nat) (n' : Net),
      net.slotInv → net.pipe_output t = some n' → n'.slotInv)
  ∧ (∀ (net : Net) (e : Edge) (n' : Net),
      net.slotInv → net.join e = some n' → n'.slotInv)
  ∧ (∀ (net : Net) (a b : Nat) (n' : Net),
      net.slotInv → net.pipe a b = some n' → n'.slotInv)
  ∧ (∀ (net : Net) (u : AudioUnit) (n' : Net),
      net.slotInv → net.chain u = some n' → n'.slotInv)
  ∧ (∀ (net : Net) (input : List F) (outLen : Nat) (n' : Net) (out : List F),
      net.slotInv → net.tick input outLen = some (n', out) → n'.slotInv)
  ∧ (∀ (net : Net) (size : Nat) (input : List (List F)) (outChans : Nat)
        (n' : Net) (out : List (List F)),
      net.slotInv → net.process size input outChans = some (n', out) → n'.slotInv) := by
  refine ⟨slotInv_add, ?_, ?_, ?_, fun net t n' h hh => pipe_input_slotInv h hh, ?_, ?_,
    ?_, fun net a b n' h hh => pipe_slotInv h hh, ?_, ?_, ?_⟩
  · intro net u v hget
    simp only [Net.add] at hget
    rw [List.get?_concat_length] at hget
    cases hget
    constructor
    · simp
    · intro i hi
      simp only [List.get?_map, List.get?_range hi, Option.map_some']
  · intro net a b c d n' hInv h
    simp only [Net.connect] at h
    split at h
    · exact Option.noConfusion h
    · rename_i v heq
      split at h
      · cases h
        refine slotInvL_set hInv ?_
        have hv2 := hInv v (List.get?_mem heq)
        simpa using hv2
      · exact Option.noConfusion h
  · intro net a b c n' hInv h
    simp only [Net.connect_input] at h
    split at h
    · exact Option.noConfusion h
    · rename_i v heq
      split at h
      · cases h
        refine slotInvL_set hInv ?_
        have hv2 := hInv v (List.get?_mem heq)
        simpa using hv2
      · exact Option.noConfusion h
  · intro net a b c n' hInv h
    simp only [Net.connect_output] at h
    split at h
    · cases h; exact hInv
    · exact Option.noConfusion h
  · intro net t n' hInv h
    have hv := pipe_output_vertex h
    intro w hw
    rw [hv] at hw
    exact hInv w hw
  · intro net e n' hInv h
    simp only [Net.join] at h
    split at h
    · split at h
      · cases h; exact hInv
      · exact Option.noConfusion h
    · rw [Option.bind_eq_bind, Option.bind_eq_some] at h
      obtain ⟨v, hv, h⟩ := h
      split at h
      · cases h
        refine slotInvL_set hInv ?_
        have hv2 := hInv v (List.get?_mem hv)
        simpa using hv2
      · exact Option.noConfusion h
    · cases h; exact hInv
  · intro net u n' hInv h
    simp only [Net.chain] at h
    split at h
    · rw [Option.bind_eq_bind, Option.bind_eq_some] at h
      obtain ⟨net2, h2, h⟩ := h
      have hInv1 : ((net.add u).1).slotInv := slotInv_add net u hInv
      have hInv2 : net2.slotInv := by
        intro w hw
        rw [pipe_output_vertex h2] at hw
        exact hInv1 w hw
      split at h
      · exact pipe_slotInv hInv2 h
      · exact pipe_input_slotInv hInv2 h
    · exact Option.noConfusion h
  · intro net input outLen n' out hInv h
    simp only [Net.tick, Option.bind_eq_bind, Option.bind_eq_some] at h
    obtain ⟨net1, h1, vtxs, h2, out0, _, h4⟩ := h
    cases h4
    refine tickNodes_slotInv input net1.order net1.vertex vtxs ?_ h2
    rw [show net1.vertex = net.vertex from (ensureOrdered_fields h1).1]
    exact hInv
  · intro net size input outChans n' out hInv h
    simp only [Net.process, Option.bind_eq_bind, Option.bind_eq_some] at h
    obtain ⟨net1, h1, vtxs, h2, out0, _, h4⟩ := h
    cases h4
    refine processNodes_slotInv size input net1.order net1.vertex vtxs ?_ h2
    rw [show net1.vertex = net.vertex from (ensureOrdered_fields h1).1]
    exact hInv

/-- Witness for C8 at concrete networks: the invariant holds after a fresh
add, the fresh slots are unconnected edges, and each operation's result
still satisfies it. -/
theorem slotInvC8_witness :
    ((Net.new 1 1).add sum2Unit).1.slotInv
      ∧ (forceNet (Net.connect exNetC 0 0 0 0)).slotInv
      ∧ (forceNet (Net.pipe exNetC 0 0)).slotInv
      ∧ (forceTick (Net.tick exNetD [5] 1)).1.slotInv := by
  refine ⟨slotInvC8.1 (Net.new 1 1) sum2Unit ?_, ?_, ?_, ?_⟩
  · intro w hw; cases hw
  · refine slotInvC8.2.2.1 exNetC 0 0 0 0 _ ?_ rfl
    intro w hw
    rcases List.mem_append.mp hw with hmem | hmem
    · cases hmem
    · rw [List.mem_singleton.mp hmem]; simp
  · refine slotInvC8.2.2.2.2.2.2.2.2.1 exNetC 0 0 _ ?_ rfl
    intro w hw
    rcases List.mem_append.mp hw with hmem | hmem
    · cases hmem
    · rw [List.mem_singleton.mp hmem]; simp
  · refine slotInvC8.2.2.2.2.2.2.2.2.2.2.1 exNetD [5] 1 _ _ ?_ rfl
    intro w hw
    rcases List.mem_append.mp hw with hmem | hmem
    · cases hmem
    · rw [List.mem_singleton.mp hmem]; simp

/-- C4: in every execution pass, an input slot whose edge source is the
unconnected port reads as exactly zero, whatever the rest of the graph:
tick gathers the sample 0 for it, process gathers an all-zero block,
route gathers the known-constant-zero descriptor; and a global output
whose edge source is unconnected likewise yields the sample 0, an
all-zero block, and the known-constant-zero descriptor. -/
theorem zeroReadsC4 :
    (∀ (vtxs : List Vertex) (input : List F) (v : Vertex) (c : Nat) (e : Edge) (r : List F),
        c < v.inputs → v.source.get? c = some e → e.source = Port.Zero →
        tickGather vtxs input v = some r → r.get? c = some 0)
  ∧ (∀ (net : Net) (input : List F) (outLen ch : Nat) (e : Edge) (n' : Net) (out : List F),
        net.output_edge.get? ch = some e → e.source = Port.Zero → ch < outLen →
        net.tick input outLen = some (n', out) → out.get? ch = some 0)
  ∧ (∀ (vtxs : List Vertex) (size : Nat) (input : List (List F)) (v : Vertex) (c : Nat)
        (e : Edge) (r : List (List F)),
        c < v.inputs → v.source.get? c = some e → e.source = Port.Zero →
        processGather vtxs size input v = some r → r.get? c = some (List.replicate size 0))
  ∧ (∀ (net : Net) (size : Nat) (input : List (List F)) (outChans ch : Nat) (e : Edge)
        (n' : Net) (out : List (List F)),
        net.output_edge.get? ch = some e → e.source = Port.Zero → ch < outChans →
        net.process size input outChans = some (n', out) →
          out.get? ch = some (List.replicate size 0))
  ∧ (∀ (inner : List (List Signal)) (input : List Signal) (nd : AudioUnit × List Edge)
        (c : Nat) (e : Edge) (r : List Signal),
        c < nd.1.inputs → nd.2.get? c = some e → e.source = Port.Zero →
        routeGather inner input nd = some r → r.get? c = some (Signal.Value 0))
  ∧ (∀ (net : Net) (input : List Signal) (freq : F) (ch : Nat) (e : Edge)
        (sig : List Signal),
        net.output_edge.get? ch = some e → e.source = Port.Zero → ch < net.outputs →
        net.route input freq = some sig → sig.get? ch = some (Signal.Value 0)) := by
  refine ⟨?_, ?_, ?_, ?_, ?_, ?_⟩
  · intro vtxs input v c e r hc he hz hg
    rw [mapOpt_get? hg (List.get?_range hc), he]
    simp only [Option.bind_eq_bind, Option.some_bind]
    rw [hz]
    rfl
  · intro net input outLen ch e n' out he hz hch h
    simp only [Net.tick, Option.bind_eq_bind, Option.bind_eq_some] at h
    obtain ⟨net1, h1, vtxs, _, out0, h3, h4⟩ := h
    cases h4
    rw [(ensureOrdered_fields h1).2.1] at h3
    rw [mapOpt_get? h3 (List.get?_range hch), he]
    simp only [Option.bind_eq_bind, Option.some_bind]
    rw [hz]
  · intro vtxs size input v c e r hc he hz hg
    rw [mapOpt_get? hg (List.get?_range hc), he]
    simp only [Option.bind_eq_bind, Option.some_bind]
    rw [hz]
  · intro net size input outChans ch e n' out he hz hch h
    simp only [Net.process, Option.bind_eq_bind, Option.bind_eq_some] at h
    obtain ⟨net1, h1, vtxs, _, out0, h3, h4⟩ := h
    cases h4
    rw [(ensureOrdered_fields h1).2.1] at h3
    rw [mapOpt_get? h3 (List.get?_range hch), he]
    simp only [Option.bind_eq_bind, Option.some_bind]
    rw [hz]
  · intro inner input nd c e r hc he hz hg
    rw [mapOpt_get? hg (List.get?_range hc), he]
    simp only [Option.bind_eq_bind, Option.some_bind]
    rw [hz]
  · intro net input freq ch e sig he hz hch h
    simp only [Net.route, routeCore, Option.bind_eq_bind, Option.bind_eq_some] at h
    obtain ⟨ord, _, inner, _, h3⟩ := h
    rw [mapOpt_get? h3 (List.get?_range hch), he]
    simp only [Option.bind_eq_bind, Option.some_bind]
    rw [hz]

/-- Witness for C4 at the concrete network whose slots and sole output are
all unconnected: every gathered value and every emitted output is
exactly zero in each of the three passes. -/
theorem zeroReadsC4_witness :
    ([0, 0] : List F).get? 0 = some 0
  ∧ (forceTick (Net.tick exNetD [5] 1)).2.get? 0 = some 0
  ∧ ([List.replicate 2 (0 : F), List.replicate 2 (0 : F)]).get? 0
      = some (List.replicate 2 (0 : F))
  ∧ (forceProcess (Net.process exNetD 2 [[5, 6]] 1)).2.get? 0
      = some (List.replicate 2 (0 : F))
  ∧ ([Signal.Value 0, Signal.Value 0]).get? 0 = some (Signal.Value 0)
  ∧ ([Signal.Value 0]).get? 0 = some (Signal.Value 0) := by
  refine ⟨?_, ?_, ?_, ?_, ?_, ?_⟩
  · exact zeroReadsC4.1 exNetD.vertex [5] (exNetD.vertex.getD 0 (Vertex.new 0 0 0)) 0
      (edge Port.Zero (Port.Local 0 0)) [0, 0] (by decide) (by decide) rfl (by decide)
  · exact zeroReadsC4.2.1 exNetD [5] 1 0 (edge Port.Zero (Port.Global 0))
      (forceTick (Net.tick exNetD [5] 1)).1 (forceTick (Net.tick exNetD [5] 1)).2
      rfl rfl (by decide) rfl
  · exact zeroReadsC4.2.2.1 exNetD.vertex 2 [[5, 6]]
      (exNetD.vertex.getD 0 (Vertex.new 0 0 0)) 0 (edge Port.Zero (Port.Local 0 0))
      [List.replicate 2 0, List.replicate 2 0] (by decide) (by decide) rfl (by decide)
  · exact zeroReadsC4.2.2.2.1 exNetD 2 [[5, 6]] 1 0 (edge Port.Zero (Port.Global 0))
      (forceProcess (Net.process exNetD 2 [[5, 6]] 1)).1
      (forceProcess (Net.process exNetD 2 [[5, 6]] 1)).2 rfl rfl (by decide) rfl
  · exact zeroReadsC4.2.2.2.2.1 [[Signal.Unknown]] [Signal.Value 3]
      (sum2Unit, (exNetD.vertex.getD 0 (Vertex.new 0 0 0)).source) 0
      (edge Port.Zero (Port.Local 0 0)) [Signal.Value 0, Signal.Value 0]
      (by decide) (by decide) rfl (by decide)
  · exact zeroReadsC4.2.2.2.2.2 exNetD [Signal.Value 3] 440 0
      (edge Port.Zero (Port.Global 0)) [Signal.Value 0] rfl rfl (by decide) rfl

/-- C6 (amended): chain, under the stated arity precondition together with
the conditions its wiring helpers actually check -- when the network is
empty the unit's input arity must also equal the network input arity,
otherwise the previous vertex's output arity must equal the unit's input
arity -- succeeds and performs exactly the claimed steps: it appends the
unit as the next vertex, wires every global output from that vertex, and
wires that vertex's inputs from the previous vertex, or from the global
inputs when it is the first vertex. -/
theorem chainSpecC6 (net : Net) (u : AudioUnit)
    (h1 : u.inputs = u.outputs) (h2 : net.outputs = u.outputs)
    (h3 : net.output_edge.length = net.outputs)
    (h4 : net.vertex = [] → net.inputs = u.inputs)
    (h5 : ∀ vl, net.vertex.getLast? = some vl → vl.output.length = u.inputs) :
    ∃ n', net.chain u = some n'
      ∧ n'.ordered = false
      ∧ n'.input = net.input ∧ n'.output = net.output ∧ n'.order = net.order
      ∧ n'.vertex.length = net.vertex.length + 1
      ∧ (∀ j, j < net.vertex.length → n'.vertex.get? j = net.vertex.get? j)
      ∧ (∃ v, n'.vertex.get? net.vertex.length = some v
          ∧ v.unit = u ∧ v.id = net.vertex.length ∧ v.source.length = u.inputs
          ∧ ∀ i, i < u.inputs → v.source.get? i = some (
              if net.vertex.length = 0 then edge (Port.Global i) (Port.Local 0 i)
              else edge (Port.Local (net.vertex.length - 1) i)
                (Port.Local net.vertex.length i)))
      ∧ n'.output_edge.length = net.output_edge.length
      ∧ (∀ j, j < net.outputs →
          n'.output_edge.get? j
            = some (edge (Port.Local net.vertex.length j) (Port.Global j))) := by
  obtain ⟨gi, go, oe0, vs, od, ob⟩ := net
  simp only [Net.outputs, Net.inputs] at h2 h3 h4 h5 ⊢
  simp only [Net.chain, Net.add]
  rw [if_pos (And.intro h1 (show Net.outputs ⟨gi, go, oe0, vs, od, ob⟩ = u.outputs from h2))]
  obtain ⟨oe, hoe, hoelen, hoespec⟩ :=
    setEdges_total (fun i => edge (Port.Local vs.length i) (Port.Global i))
      (List.range go.length) oe0
      (fun i hi => by rw [h3]; exact List.mem_range.mp hi)
  simp only [Net.pipe_output, Net.outputs, Option.bind_eq_bind]
  rw [List.get?_concat_length]
  simp only [Option.some_bind]
  rw [if_pos (show Vertex.outputs _ = go.length by
    simp [Vertex.outputs, List.length_replicate, h2])]
  rw [hoe]
  simp only [Option.some_bind]
  by_cases hempty : vs = []
  · subst hempty
    have hgi : gi.length = u.inputs := h4 rfl
    simp only [List.length_nil, List.nil_append, gt_iff_lt, Nat.lt_irrefl, if_false]
    obtain ⟨src, hsrc, hsrclen, hsrcspec⟩ :=
      setEdges_total (fun i => edge (Port.Global i) (Port.Local 0 i))
        (List.range gi.length)
        ((List.range u.inputs).map fun i => edge Port.Zero (Port.Local 0 i))
        (fun i hi => by
          simp only [List.length_map, List.length_range]
          rw [← hgi]
          exact List.mem_range.mp hi)
    simp only [Net.pipe_input, Net.inputs, Option.bind_eq_bind, List.get?, Option.some_bind]
    rw [if_pos (show Vertex.inputs _ = gi.length by
      simp [Vertex.inputs, List.length_replicate, hgi])]
    rw [hsrc]
    simp only [Option.some_bind]
    refine ⟨_, rfl, rfl, rfl, rfl, rfl, by simp, ?_, ?_, ?_, ?_⟩
    · intro j hj
      exact absurd hj (Nat.not_lt_zero j)
    · refine ⟨_, rfl, rfl, rfl, ?_, ?_⟩
      · rw [hsrclen]
        simp
      · intro i hi
        rw [hsrcspec i, if_pos (List.mem_range.mpr (by rw [hgi]; exact hi))]
        simp
    · rw [hoelen]
    · intro j hj
      rw [hoespec j, if_pos (List.mem_range.mpr hj)]
      rfl
  · have hne : vs.length ≠ 0 := fun hh => hempty (List.length_eq_zero.mp hh)
    have hpos : 0 < vs.length := Nat.pos_of_ne_zero hne
    simp only [gt_iff_lt, if_pos hpos]
    have hvl : vs.get? (vs.length - 1) = some (vs.getLast hempty) := by
      rw [← List.getLast?_eq_get?]
      exact List.getLast?_eq_getLast_of_ne_nil hempty
    have hout : (vs.getLast hempty).output.length = u.inputs :=
      h5 (vs.getLast hempty) (List.getLast?_eq_getLast_of_ne_nil hempty)
    obtain ⟨src, hsrc, hsrclen, hsrcspec⟩ :=
      setEdges_total (fun i => edge (Port.Local (vs.length - 1) i) (Port.Local vs.length i))
        (List.range u.inputs)
        ((List.range u.inputs).map fun i => edge Port.Zero (Port.Local vs.length i))
        (fun i hi => by
          simp only [List.length_map, List.length_range]
          exact List.mem_range.mp hi)
    simp only [Net.pipe, Option.bind_eq_bind]
    rw [List.get?_append (by omega : vs.length - 1 < vs.length), hvl]
    simp only [Option.some_bind]
    rw [List.get?_concat_length]
    simp only [Option.some_bind]
    rw [if_pos (show Vertex.outputs _ = Vertex.inputs _ by
      simp [Vertex.outputs, Vertex.inputs, List.length_replicate, hout])]
    rw [show Vertex.inputs
        ({ unit := u,
           source := (List.range u.inputs).map fun i => edge Port.Zero (Port.Local vs.length i),
           input := List.replicate u.inputs [], output := List.replicate u.outputs [],
           tick_input := List.replicate u.inputs 0,
           tick_output := List.replicate u.outputs 0,
           id := vs.length } : Vertex) = u.inputs by
      simp [Vertex.inputs, List.length_replicate]]
    rw [hsrc]
    simp only [Option.some_bind]
    refine ⟨_, rfl, rfl, rfl, rfl, rfl, by simp, ?_, ?_, ?_, ?_⟩
    · intro j hj
      rw [List.get?_set_ne _ _ (by omega : vs.length ≠ j)]
      exact List.get?_append hj
    · refine ⟨{ unit := u, source := src, input := List.replicate u.inputs [],
                output := List.replicate u.outputs [],
                tick_input := List.replicate u.inputs 0,
                tick_output := List.replicate u.outputs 0,
                id := vs.length }, ?_, rfl, rfl, ?_, ?_⟩
      · rw [List.get?_set_eq, List.get?_concat_length]
        rfl
      · rw [hsrclen]
        simp
      · intro i hi
        rw [hsrcspec i, if_pos (List.mem_range.mpr hi), if_neg hne]
    · rw [hoelen]
    · intro j hj
      rw [hoespec j, if_pos (List.mem_range.mpr hj)]

/-- Witness for C6: chaining the first unit into a compatible one-in
one-out network succeeds, clears the flag and appends the vertex. -/
theorem chainSpecC6_witness :
    (Net.chain (Net.new 1 1) passUnit).isSome = true
      ∧ (Net.chain (Net.new 1 1) passUnit).map Net.ordered = some false
      ∧ (Net.chain (Net.new 1 1) passUnit).map (fun n => n.vertex.length) = some 1 := by
  obtain ⟨n', hc, hord, _, _, _, hlen, _⟩ :=
    chainSpecC6 (Net.new 1 1) passUnit rfl rfl rfl (fun _ => rfl)
      (fun vl hl => Option.noConfusion hl)
  rw [hc]
  refine ⟨rfl, ?_, ?_⟩
  · simp only [Option.map_some']
    rw [hord]
  · simp only [Option.map_some']
    rw [hlen]
    rfl

/-- Witness for C9: scrambling every buffer, the cached order, the flag and
the global input buffer of a concrete network does not change route's
output. -/
theorem routeFrameC9_witness :
    Net.route { exNetD with
                input := [[1, 2]],
                order := [5],
                ordered := true,
                vertex := exNetD.vertex.map exScrub } [Signal.Value 3] 440
      = Net.route exNetD [Signal.Value 3] 440 :=
  routeFrameC9 exNetD [5] true [[1, 2]] exScrub (fun _ => rfl) (fun _ => rfl)
    [Signal.Value 3] 440

/-- C1: on the acyclic network `exNetA`, order determination computes
`[1, 4, 3, 0, 2]`, which is not a topological order of the local
dependencies (a topological order, `[4, 1, 3, 2, 0]`, exists, so the
local edges are acyclic; yet vertex 0 is placed before its source
vertex 2).  The claim that the computed order puts every local edge's
source before its target therefore fails on the code: each already
satisfied edge is decremented again on every scan of the while loop. -/
theorem orderNotTopoC1 :
    exNetA.bind Net.orderOf = some [1, 4, 3, 0, 2]
      ∧ exNetA.map (fun n => isTopoOrder n [4, 1, 3, 2, 0]) = some true
      ∧ exNetA.map (fun n => isTopoOrder n [1, 4, 3, 0, 2]) = some false := by
  decide

/-- C2: the network `exNetB` carries a directed two-cycle between local
ports of vertices 1 and 2, yet order determination terminates with the
order `[0, 2, 1]` instead of failing, and a tick call then executes and
returns a sample; the recounting of the satisfied edge from vertex 0
drives the cycle vertex 2 to readiness. -/
theorem cycleUndetectedC2 :
    exNetB.map (fun n => ((localEdges n).contains (1, 2)
        && (localEdges n).contains (2, 1))) = some true
      ∧ exNetB.bind Net.orderOf = some [0, 2, 1]
      ∧ (exNetB.bind fun n => (Net.tick n [] 1).map Prod.snd) = some [1] := by
  decide

/-- C3: on the acyclic network `exNetA` two consecutive tick calls produce
the samples 10 then 11 on the sole output channel, while a single
process call of block size two produces the samples 10 and 10: the
non-topological evaluation order makes tick read a one-sample-stale
sibling value where process reads a whole-block-stale buffer. -/
theorem tickProcessDisagreeC3 :
    (exNetA.bind fun n => (Net.tick n [] 1).bind fun p =>
        (Net.tick p.1 [] 1).map fun q => (p.2, q.2)) = some ([10], [11])
      ∧ (exNetA.bind fun n => (Net.process n 2 [] 1).map Prod.snd)
          = some [[10, 10]] := by
  decide

/-- C5 counterexample: on a network with a single vertex, connecting from
the out-of-range source node 5 succeeds at the connect call itself, and
the failure only surfaces at the next execution call; so an out-of-range
source index among connect's four arguments is not detected eagerly. -/
theorem connectNoEagerC5 :
    exNetC.vertex.length = 1
      ∧ (Net.connect exNetC 5 0 0 0).isSome = true
      ∧ ((Net.connect exNetC 5 0 0 0).bind fun n => Net.tick n [0] 1).isSome
          = false := by
  decide

/-- C6 counterexample: on a network with zero global inputs and one global
output, chaining a one-input one-output unit satisfies the claimed
precondition (unit inputs = unit outputs = network outputs) yet fails
fatally, because wiring the first chained unit from the global inputs
requires the unit's input arity to equal the network's input arity. -/
theorem chainPrecondFailsC6 :
    passUnit.inputs = passUnit.outputs
      ∧ (Net.new 0 1).outputs = passUnit.outputs
      ∧ (Net.chain (Net.new 0 1) passUnit).isNone = true := by
  decide

/-- C10: joining an edge whose target is the unconnected port leaves every
vertex incoming-edge table, the output edge table, and the cached order
untouched, yet still clears the order-valid flag, forcing a
recomputation on the next execution call. -/
theorem joinZeroFrameC10 (net : Net) (e : Edge) (h : e.target = Port.Zero) :
    Net.join net e = some { net with ordered := false } := by
  unfold Net.join
  rw [h]

/-- Witness for C10 at a concrete network and edge. -/
theorem joinZeroFrameC10_witness :
    Net.join (Net.new 1 1) (edge (Port.Local 0 0) Port.Zero)
      = some { Net.new 1 1 with ordered := false } :=
  joinZeroFrameC10 (Net.new 1 1) (edge (Port.Local 0 0) Port.Zero) rfl

end FundspNet
